import Mathlib

/-!
Shallow embedding of `src/quiz.py` (CLI quiz application backed by a SQLite
database).  The relational store is modelled as an explicit state
(`DBState`): the `quizzes` and `questions` tables are lists of rows, and the
`AUTOINCREMENT` primary keys are modelled by the monotone counters
`nextQuizId` / `nextQuestionId`.  Each method of `QuizDatabase` becomes a
function from the state to a result together with the successor state;
Python exceptions (`ValueError` raised on duplicate names or missing
quizzes, `sqlite3.IntegrityError` from the `CHECK` constraint, `IndexError`
from `choices[0..3]`) become an explicit `DBError` result with the state
left unchanged, since a failed statement is never committed.

The interactive runtime (`class Quiz`) is modelled as a function over the
stream of stdin lines: every `input()` call consumes one element of the
stream, including the "Press Enter to continue..." prompt after each
accepted answer.  Running out of stdin (Python would raise `EOFError`)
makes the run return `none`.
-/

namespace QuizApp

/-- One row of the `quizzes` table: `(id, name UNIQUE, title, description)`.
The `created_at` timestamp column is never read by any operation and is
omitted. -/
structure QuizRow where
  id : Nat
  name : String
  title : String
  description : String
deriving DecidableEq

/-- One row of the `questions` table: id, owning quiz id (foreign key with
`ON DELETE CASCADE`), question text, the four choices, the correct letter
(`CHECK (correct_answer IN ('a','b','c','d'))`) and the explanation. -/
structure QuestionRow where
  id : Nat
  quizId : Nat
  question : String
  choiceA : String
  choiceB : String
  choiceC : String
  choiceD : String
  correct : String
  explanation : String
deriving DecidableEq

/-- The persistent store: both tables plus the `AUTOINCREMENT` counters. -/
structure DBState where
  quizzes : List QuizRow
  questions : List QuestionRow
  nextQuizId : Nat
  nextQuestionId : Nat
deriving DecidableEq

/-- A freshly initialised database (`init_database` creates empty tables;
SQLite row ids start at 1). -/
def emptyDB : DBState := ⟨[], [], 1, 1⟩

/-- The error outcomes of the storage layer.  `duplicateName` is the
`ValueError "Quiz '<name>' already exists!"` raised in `create_quiz`,
`quizNotFound` the `ValueError "Quiz '<name>' not found!"` raised in
`add_question`, `checkViolation` the uncaught `IntegrityError` from the
`CHECK` constraint on `correct_answer`, and `indexError` the uncaught
`IndexError` when fewer than four choices are supplied. -/
inductive DBError
  | duplicateName (name : String)
  | quizNotFound (name : String)
  | checkViolation
  | indexError
deriving DecidableEq

/-- `QuizDatabase.create_quiz`: inserts `(name, title, description)` into
`quizzes` and returns the new row id; the `UNIQUE` constraint on `name`
makes the insert fail (surfaced as `duplicateName`) when a quiz with that
name already exists, leaving the store unchanged. -/
def create_quiz (db : DBState) (name title description : String) :
    Except DBError Nat × DBState :=
  if db.quizzes.any (fun z => z.name == name) then
    (.error (.duplicateName name), db)
  else
    (.ok db.nextQuizId,
     { db with
        quizzes := db.quizzes ++ [⟨db.nextQuizId, name, title, description⟩],
        nextQuizId := db.nextQuizId + 1 })

/-- `QuizDatabase.add_question`: looks up the quiz id by name
(`SELECT id FROM quizzes WHERE name = ?`, `fetchone`); if absent, raises
`quizNotFound`.  Otherwise inserts a question row built from
`choices[0] .. choices[3]` (an `IndexError` if the list is shorter) subject
to the `CHECK` constraint on the correct letter. -/
def add_question (db : DBState) (quiz_name question : String)
    (choices : List String) (correct explanation : String) :
    Except DBError Unit × DBState :=
  match db.quizzes.find? (fun z => z.name == quiz_name) with
  | none => (.error (.quizNotFound quiz_name), db)
  | some qz =>
    match choices with
    | c0 :: c1 :: c2 :: c3 :: _ =>
      if (["a", "b", "c", "d"] : List String).contains correct then
        (.ok (),
         { db with
            questions := db.questions ++
              [⟨db.nextQuestionId, qz.id, question, c0, c1, c2, c3,
                correct, explanation⟩],
            nextQuestionId := db.nextQuestionId + 1 })
      else (.error .checkViolation, db)
    | _ => (.error .indexError, db)

/-- `ord(letter) - ord('a')`, the conversion from the stored correct letter
to a 0-based index performed in `get_quiz_questions` (and on user answers
in `Quiz._ask_question`). -/
def letterIndex (s : String) : Nat :=
  (s.toList.headD 'a').toNat - 97

/-- The dictionary shape returned by `get_quiz_questions`: question text,
the four choices as a list, the correct choice as an index, and the
explanation. -/
structure QuestionOut where
  question : String
  choices : List String
  correct : Nat
  explanation : String
deriving DecidableEq

/-- The row-to-dictionary conversion inside `get_quiz_questions`. -/
def rowToOut (r : QuestionRow) : QuestionOut :=
  ⟨r.question, [r.choiceA, r.choiceB, r.choiceC, r.choiceD],
   letterIndex r.correct, r.explanation⟩

/-- `QuizDatabase.get_quiz_questions`: the join
`questions JOIN quizzes ON quiz_id = id WHERE name = ? ORDER BY q.id`,
each row converted to a dictionary. -/
def get_quiz_questions (db : DBState) (quiz_name : String) :
    List QuestionOut :=
  ((db.questions.filter (fun q =>
      db.quizzes.any (fun z => q.quizId == z.id && z.name == quiz_name))).insertionSort
    (fun a b => a.id ≤ b.id)).map rowToOut

/-- The dictionary shape returned by `get_quiz_info` and `list_quizzes`:
name, title, description and the computed question count. -/
structure QuizInfo where
  name : String
  title : String
  description : String
  question_count : Nat
deriving DecidableEq

/-- The `LEFT JOIN ... COUNT(q.id) ... GROUP BY qz.id` projection of one
quiz row. -/
def quizRowInfo (db : DBState) (z : QuizRow) : QuizInfo :=
  ⟨z.name, z.title, z.description,
   (db.questions.filter (fun q => q.quizId == z.id)).length⟩

/-- `QuizDatabase.get_quiz_info`: the counted projection of the quiz with
the given name, or `none` when no such quiz exists. -/
def get_quiz_info (db : DBState) (quiz_name : String) : Option QuizInfo :=
  match db.quizzes.find? (fun z => z.name == quiz_name) with
  | none => none
  | some z => some (quizRowInfo db z)

/-- Lexicographic comparison of character sequences, the order SQLite's
default `BINARY` collation gives to `TEXT` values (byte-wise `memcmp` on
UTF-8, which is code-point order). -/
def lexLe : List Char → List Char → Bool
  | [], _ => true
  | _ :: _, [] => false
  | a :: as, b :: bs =>
    if a.toNat < b.toNat then true
    else if b.toNat < a.toNat then false
    else lexLe as bs

/-- `ORDER BY` comparison on two `TEXT` values. -/
def strLe (a b : String) : Bool := lexLe a.data b.data

/-- `QuizDatabase.list_quizzes`: every quiz's counted projection,
`ORDER BY qz.name`. -/
def list_quizzes (db : DBState) : List QuizInfo :=
  (db.quizzes.insertionSort (fun a b => strLe a.name b.name = true)).map
    (quizRowInfo db)

/-- `QuizDatabase.delete_quiz`: `DELETE FROM quizzes WHERE name = ?`,
returning `cursor.rowcount > 0`.  Although the schema declares the
foreign key with `ON DELETE CASCADE`, SQLite keeps foreign-key
enforcement off by default on every connection and the program never
issues `PRAGMA foreign_keys = ON`, so the statement removes only the
matching quiz rows: the owned question rows stay behind in the
`questions` table, orphaned. -/
def delete_quiz (db : DBState) (quiz_name : String) : Bool × DBState :=
  (db.quizzes.any (fun z => z.name == quiz_name),
   { db with
      quizzes := db.quizzes.filter (fun z => !(z.name == quiz_name)) })

/-! ## Quiz runtime (`class Quiz`) -/

/-- One question as held in memory by `Quiz` (the dictionaries produced by
`get_quiz_questions`). -/
structure Question where
  question : String
  choices : List String
  correct : Nat
  explanation : String
deriving DecidableEq

/-- The attributes of a `Quiz` object: `name`, `title`, `questions`,
`score`, `total`. -/
structure QuizState where
  name : String
  title : String
  questions : List Question
  score : Nat
  total : Nat
deriving DecidableEq

/-- `Quiz.__init__`: `score = 0`, `total = len(questions)`. -/
def mkQuiz (name title : String) (questions : List Question) : QuizState :=
  ⟨name, title, questions, 0, questions.length⟩

/-- The rating bands of `Quiz._show_results` (fixed thresholds 90, 80, 70,
60). -/
inductive Band
  | excellent
  | great
  | good
  | keepStudying
  | practice
deriving DecidableEq

/-- The `if percentage >= 90 ... elif ... else` cascade of
`Quiz._show_results`. -/
def bandOf (p : ℚ) : Band :=
  if p ≥ 90 then .excellent
  else if p ≥ 80 then .great
  else if p ≥ 70 then .good
  else if p ≥ 60 then .keepStudying
  else .practice

/-- The observable events of a run: the early "has no questions!" report,
the presentation of question number `num`, and the final results block
(score, total, percentage and rating band). -/
inductive Output
  | noQuestions
  | asked (num : Nat)
  | results (score total : Nat) (percentage : ℚ) (band : Band)
deriving DecidableEq

/-- `Quiz._show_results`: `percentage = (score / total) * 100`, then the
band cascade. -/
def showResults (score total : Nat) : Output :=
  .results score total ((score : ℚ) / (total : ℚ) * 100)
    (bandOf ((score : ℚ) / (total : ℚ) * 100))

/-- The number printed by Python's `"{:.1f}"` format, in tenths: the
percentage rounded to one decimal place. -/
def displayTenths (p : ℚ) : ℤ := round (p * 10)

/-- The outcome of `Quiz._ask_question` on a stream of stdin lines:
either the question was answered (`True` in Python, with the updated score
and the remaining stream), or the user typed `quit` (`False`), or stdin ran
dry mid-question (Python's `EOFError`). -/
inductive AskResult
  | continued (score : Nat) (rest : List String)
  | quitEarly (score : Nat) (rest : List String)
  | inputExhausted
deriving DecidableEq

/-- Python's `str.strip()` at the character level: drop leading and
trailing whitespace. -/
def pyStrip (s : String) : String :=
  ⟨((s.data.dropWhile Char.isWhitespace).reverse.dropWhile
      Char.isWhitespace).reverse⟩

/-- Python's `str.lower()` at the character level (the inputs compared by
the quiz loop are ASCII). -/
def pyLower (s : String) : String := ⟨s.data.map Char.toLower⟩

/-- `Quiz._ask_question`'s `while True` input loop: each iteration reads a
line, strips and lowercases it; `"quit"` returns `False`; a letter in
`a-d` scores it against `question.correct`, consumes the
"Press Enter to continue..." line, and returns `True`; anything else
re-prompts. -/
def askQuestion (score : Nat) (question : Question) :
    List String → AskResult
  | [] => .inputExhausted
  | inp :: rest =>
    let answer := pyLower (pyStrip inp)
    if answer = "quit" then .quitEarly score rest
    else if (["a", "b", "c", "d"] : List String).contains answer then
      match rest with
      | [] => .inputExhausted
      | _ :: rest2 =>
        if letterIndex answer = question.correct then
          .continued (score + 1) rest2
        else .continued score rest2
    else askQuestion score question rest

/-- The `for i, question in enumerate(questions, 1)` loop of `Quiz.run`:
asks each question in turn, accumulating the score and the presentation
events, stopping early when `_ask_question` returns `False`. -/
def askAll (score num : Nat) :
    List Question → List String → Option (Nat × List Output)
  | [], _ => some (score, [])
  | q :: qs, inputs =>
    match askQuestion score q inputs with
    | .inputExhausted => none
    | .quitEarly s _ => some (s, [.asked num])
    | .continued s rest =>
      match askAll s (num + 1) qs rest with
      | none => none
      | some (s2, outs) => some (s2, .asked num :: outs)

/-- `Quiz.run`: with no questions, report and return at once.  Otherwise
iterate over a copy of `self.questions` (replaced by the shuffled
permutation `shuffled` when `shuffle` is set, standing for
`random.shuffle`), then always show the results.  `none` models an
`EOFError` escaping when stdin is exhausted mid-run. -/
def run (quiz : QuizState) (shuffle : Bool) (shuffled : List Question)
    (inputs : List String) : Option (QuizState × List Output) :=
  if quiz.questions = [] then some (quiz, [.noQuestions])
  else
    let qs := if shuffle then shuffled else quiz.questions
    match askAll quiz.score 1 qs inputs with
    | none => none
    | some (finalScore, outs) =>
      let quiz2 := { quiz with score := finalScore }
      some (quiz2, outs ++ [showResults quiz2.score quiz2.total])

/-! ## Concrete stores and quizzes used as witnesses -/

/-- A store holding quizzes created in the order `"b"`, `"a"`. -/
def dbBA : DBState :=
  (create_quiz (create_quiz emptyDB "b" "B" "").2 "a" "A" "").2

/-- A store holding the single quiz `"g"`. -/
def dbG : DBState := (create_quiz emptyDB "g" "G" "desc").2

/-- `dbG` with one question added to quiz `"g"`. -/
def dbG1 : DBState :=
  (add_question dbG "g" "q1" ["w", "x", "y", "z"] "b" "because").2

/-- The three questions of the `"geo"` scenario quiz, with correct answers
`a`, `b`, `c` (indices 0, 1, 2). -/
def geoQs : List Question :=
  [⟨"q1", ["w", "x", "y", "z"], 0, ""⟩,
   ⟨"q2", ["w", "x", "y", "z"], 1, ""⟩,
   ⟨"q3", ["w", "x", "y", "z"], 2, ""⟩]

/-- The `"geo"` scenario quiz object. -/
def geoQuiz : QuizState := mkQuiz "geo" "Geo" geoQs

/-! ## Authoring sequences (for the round-trip property) -/

/-- The data of one authored question, as collected by the question
authoring flow and passed to `add_question`. -/
structure QSpec where
  question : String
  choices : List String
  correct : String
  explanation : String
deriving DecidableEq

/-- The dictionary `get_quiz_questions` is expected to return for an
authored question: same text, same choices, the correct letter converted
to its index. -/
def specOut (s : QSpec) : QuestionOut :=
  ⟨s.question, s.choices, letterIndex s.correct, s.explanation⟩

/-- Add a sequence of questions to the quiz named `n`, in order. -/
def addAll (n : String) : DBState → List QSpec → DBState
  | db, [] => db
  | db, s :: ss =>
    addAll n (add_question db n s.question s.choices s.correct s.explanation).2 ss

/-- The well-formedness invariant of the `questions` table that the
`AUTOINCREMENT` primary key guarantees: rows are stored in strictly
increasing id order and every id is below the next id to be handed out. -/
structure WF (db : DBState) : Prop where
  idsSorted : db.questions.Pairwise (fun a b => a.id < b.id)
  idsLt : ∀ q ∈ db.questions, q.id < db.nextQuestionId

/-- Two authored questions used to exercise the round-trip property. -/
def demoSpecs : List QSpec :=
  [⟨"q1", ["w", "x", "y", "z"], "b", "because"⟩,
   ⟨"q2", ["e", "f", "g2", "h"], "d", ""⟩]

end QuizApp

namespace QuizApp

/-! ## The `ORDER BY` collation agrees with the ambient string order -/

theorem lexLe_iff : ∀ as bs : List Char,
    lexLe as bs = true ↔ ¬ List.Lex (· < ·) bs as := by
  intro as
  induction as with
  | nil =>
    intro bs
    simp only [lexLe, true_iff]
    exact List.Lex.not_nil_right _ _
  | cons a as ih =>
    intro bs
    cases bs with
    | nil =>
      simp only [lexLe, Bool.false_eq_true, false_iff, not_not]
      exact List.Lex.nil
    | cons b bs =>
      by_cases hab : a.toNat < b.toNat
      · have hlt : a < b := by rw [Char.lt_def]; exact hab
        simp only [lexLe, if_pos hab, true_iff]
        intro hlex
        cases hlex with
        | cons h => exact absurd hlt (lt_irrefl a)
        | rel h => exact absurd (lt_trans h hlt) (lt_irrefl b)
      · by_cases hba : b.toNat < a.toNat
        · have hlt : b < a := by rw [Char.lt_def]; exact hba
          simp only [lexLe, if_neg hab, if_pos hba, Bool.false_eq_true,
            false_iff, not_not]
          exact List.Lex.rel hlt
        · have heq : a = b := by
            have h1 : a.toNat = a.val.toNat := rfl
            have h2 : b.toNat = b.val.toNat := rfl
            exact Char.eq_of_val_eq (by apply UInt32.ext; omega)
          subst heq
          simp only [lexLe, if_neg hab]
          rw [ih bs]
          constructor
          · intro h hlex
            cases hlex with
            | cons h2 => exact h h2
            | rel h2 => exact absurd h2 (lt_irrefl a)
          · intro h h2
            exact h (List.Lex.cons h2)

/-- The SQLite collation order modelled by `strLe` is exactly the ambient
linear order on `String`. -/
theorem strLe_iff (a b : String) : strLe a b = true ↔ a ≤ b := by
  rw [String.le_iff_toList_le, ← not_lt]
  exact lexLe_iff a.data b.data

theorem strLe_quizRow_total (a b : QuizRow) :
    strLe a.name b.name = true ∨ strLe b.name a.name = true := by
  rcases le_total a.name b.name with h | h
  · exact Or.inl ((strLe_iff _ _).mpr h)
  · exact Or.inr ((strLe_iff _ _).mpr h)

theorem strLe_quizRow_trans (a b c : QuizRow)
    (h1 : strLe a.name b.name = true) (h2 : strLe b.name c.name = true) :
    strLe a.name c.name = true :=
  (strLe_iff _ _).mpr (le_trans ((strLe_iff _ _).mp h1) ((strLe_iff _ _).mp h2))

/-! ## Storage layer: error paths and deletion -/

/-- C5: creating a quiz under a name that is already taken fails with the
duplicate-name error and leaves the store — in particular the first
quiz's title, description and questions — unchanged. -/
theorem create_quiz_duplicate (db : DBState) (n title description : String)
    (h : ∃ z ∈ db.quizzes, z.name = n) :
    (create_quiz db n title description).1 = .error (.duplicateName n) ∧
    (create_quiz db n title description).2 = db := by
  have hany : db.quizzes.any (fun z => z.name == n) = true := by
    rw [List.any_eq_true]
    obtain ⟨z, hz, hn⟩ := h
    exact ⟨z, hz, by simp [hn]⟩
  constructor
  · simp [create_quiz, hany]
  · simp [create_quiz, hany]

theorem create_quiz_duplicate_witness :
    (∃ z ∈ dbG.quizzes, z.name = "g") ∧
    ((create_quiz dbG "g" "T2" "D2").1 = .error (.duplicateName "g") ∧
     (create_quiz dbG "g" "T2" "D2").2 = dbG) :=
  ⟨⟨⟨1, "g", "G", "desc"⟩, by decide, rfl⟩,
   create_quiz_duplicate dbG "g" "T2" "D2" ⟨⟨1, "g", "G", "desc"⟩, by decide, rfl⟩⟩

/-- C6: adding a question to a name that resolves to no quiz fails with
the not-found error and leaves the `questions` table unchanged (same rows,
hence the same row count). -/
theorem add_question_missing_quiz (db : DBState)
    (n question : String) (choices : List String) (correct explanation : String)
    (h : ∀ z ∈ db.quizzes, z.name ≠ n) :
    (add_question db n question choices correct explanation).1 =
      .error (.quizNotFound n) ∧
    (add_question db n question choices correct explanation).2.questions =
      db.questions ∧
    (add_question db n question choices correct explanation).2.questions.length =
      db.questions.length := by
  have hfind : db.quizzes.find? (fun z => z.name == n) = none := by
    rw [List.find?_eq_none]
    intro z hz
    simp [h z hz]
  refine ⟨?_, ?_, ?_⟩ <;> simp [add_question, hfind]

theorem add_question_missing_quiz_witness :
    (∀ z ∈ dbG.quizzes, z.name ≠ "nope") ∧
    ((add_question dbG "nope" "q" ["1", "2", "3", "4"] "a" "").1 =
       .error (.quizNotFound "nope") ∧
     (add_question dbG "nope" "q" ["1", "2", "3", "4"] "a" "").2.questions =
       dbG.questions ∧
     (add_question dbG "nope" "q" ["1", "2", "3", "4"] "a" "").2.questions.length =
       dbG.questions.length) :=
  ⟨by decide,
   add_question_missing_quiz dbG "nope" "q" ["1", "2", "3", "4"] "a" "" (by decide)⟩

/-- C9: `delete_quiz` returns `true` exactly when a quiz with the given
name existed (and was deleted), `false` otherwise. -/
theorem delete_quiz_returns_existence (db : DBState) (n : String) :
    (delete_quiz db n).1 = true ↔ ∃ z ∈ db.quizzes, z.name = n := by
  show db.quizzes.any (fun z => z.name == n) = true ↔ _
  simp [List.any_eq_true]

/-- C1: the claim fails on the code.  The schema declares
`ON DELETE CASCADE` and the docstring of `delete_quiz` promises to
"Delete a quiz and all its questions", but `quiz.py` never issues
`PRAGMA foreign_keys = ON`, and SQLite leaves foreign-key enforcement
off by default, so the `DELETE` removes only the quiz row.  Evaluated on
the store holding quiz `"g"` (id 1) with one question: the delete
reports success and the public queries show the quiz gone, yet the
question row is still present in the `questions` table, orphaned —
contradicting "removes the quiz and all of its questions" and "questions
orphaned ... never observable". -/
theorem delete_quiz_leaves_orphans :
    (delete_quiz dbG1 "g").1 = true ∧
    (delete_quiz dbG1 "g").2.quizzes = [] ∧
    (delete_quiz dbG1 "g").2.questions = dbG1.questions ∧
    (delete_quiz dbG1 "g").2.questions.length = 1 ∧
    (∃ q ∈ (delete_quiz dbG1 "g").2.questions, q.quizId = 1) ∧
    get_quiz_questions (delete_quiz dbG1 "g").2 "g" = [] ∧
    get_quiz_info (delete_quiz dbG1 "g").2 "g" = none := by
  decide

/-! ## Quiz runtime: shared lemmas -/

/-- The question loop emits only question presentations; the results block
is emitted once, afterwards, by `_show_results`. -/
theorem askAll_asked_only : ∀ (qs : List Question) (score num : Nat)
    (inputs : List String) (s : Nat) (outs : List Output),
    askAll score num qs inputs = some (s, outs) →
    ∀ e ∈ outs, ∃ k, e = .asked k := by
  intro qs
  induction qs with
  | nil =>
    intro score num inputs s outs h e he
    simp only [askAll, Option.some.injEq, Prod.mk.injEq] at h
    rw [← h.2] at he
    simp at he
  | cons q qs ih =>
    intro score num inputs s outs h e he
    rw [askAll] at h
    cases hq : askQuestion score q inputs with
    | inputExhausted => rw [hq] at h; simp at h
    | quitEarly s2 rest =>
      rw [hq] at h
      simp only [Option.some.injEq, Prod.mk.injEq] at h
      rw [← h.2] at he
      simp only [List.mem_singleton] at he
      exact ⟨num, he⟩
    | continued s2 rest =>
      rw [hq] at h
      dsimp only at h
      cases hrec : askAll s2 (num + 1) qs rest with
      | none => rw [hrec] at h; simp at h
      | some p =>
        rw [hrec] at h
        simp only [Option.some.injEq, Prod.mk.injEq] at h
        rw [← h.2] at he
        cases he with
        | head => exact ⟨num, rfl⟩
        | tail _ htail => exact ih s2 (num + 1) rest p.1 p.2 (by rw [hrec]) e htail

/-- Everything `run` guarantees about an emitted results block: it is the
one produced by `_show_results` from the final score and the quiz's
`total`, which `__init__` fixed to the original question count. -/
theorem run_results_spec (name title : String) (qs : List Question)
    (shuffle : Bool) (shuffled : List Question) (inputs : List String)
    (q' : QuizState) (out : List Output)
    (h : run (mkQuiz name title qs) shuffle shuffled inputs = some (q', out)) :
    ∀ s t p b, Output.results s t p b ∈ out →
      s = q'.score ∧ t = qs.length ∧
      p = (s : ℚ) / (qs.length : ℚ) * 100 ∧ b = bandOf p := by
  intro s t p b hmem
  rw [run] at h
  by_cases hqs : (mkQuiz name title qs).questions = []
  · rw [if_pos hqs] at h
    simp only [Option.some.injEq, Prod.mk.injEq] at h
    rw [← h.2] at hmem
    simp at hmem
  · rw [if_neg hqs] at h
    dsimp only at h
    cases hask : askAll (mkQuiz name title qs).score 1
        (if shuffle = true then shuffled else (mkQuiz name title qs).questions)
        inputs with
    | none => rw [hask] at h; simp at h
    | some p2 =>
      rw [hask] at h
      dsimp only at h
      simp only [Option.some.injEq, Prod.mk.injEq] at h
      obtain ⟨hq', hout⟩ := h
      rw [← hout] at hmem
      rw [List.mem_append] at hmem
      cases hmem with
      | inl hl =>
        obtain ⟨k, hk⟩ := askAll_asked_only _ _ _ _ _ _ (by rw [hask]) _ hl
        exact absurd hk (by simp)
      | inr hr =>
        simp only [List.mem_singleton, showResults, Output.results.injEq] at hr
        obtain ⟨hs, ht, hp, hb⟩ := hr
        have hscore : q'.score = p2.1 := by rw [← hq']
        have htotal : (mkQuiz name title qs).total = qs.length := rfl
        refine ⟨?_, ?_, ?_, ?_⟩
        · rw [hs, hscore]
        · rw [ht, htotal]
        · rw [hp, hs, htotal]
        · rw [hb, hp]

/-- C2: a results block always reports the original question count as the
total and computes the percentage against it — in particular after an
early `quit`; concretely, answering the first `geo` question correctly and
then quitting scores 1 out of 3 (33.3%), not 1 out of 1. -/
theorem quit_keeps_original_total :
    (∀ (name title : String) (qs : List Question) (shuffle : Bool)
       (shuffled : List Question) (inputs : List String)
       (q' : QuizState) (out : List Output),
       run (mkQuiz name title qs) shuffle shuffled inputs = some (q', out) →
       ∀ s t p b, Output.results s t p b ∈ out →
         t = qs.length ∧ p = 100 * (s : ℚ) / (qs.length : ℚ)) ∧
    run geoQuiz false [] ["a", "", "quit"] =
      some ({ geoQuiz with score := 1 },
        [.asked 1, .asked 2, .results 1 3 (100 / 3) .practice]) := by
  constructor
  · intro name title qs shuffle shuffled inputs q' out h s t p b hmem
    obtain ⟨_, ht, hp, _⟩ :=
      run_results_spec name title qs shuffle shuffled inputs q' out h s t p b hmem
    refine ⟨ht, ?_⟩
    rw [hp]
    ring
  · have h1 : askAll 0 1 geoQs ["a", "", "quit"] =
        some (1, [.asked 1, .asked 2]) := by decide
    simp only [geoQs] at h1
    simp [run, geoQuiz, mkQuiz, geoQs, showResults, h1]
    constructor
    · norm_num
    · norm_num [bandOf]

theorem quit_keeps_original_total_witness :
    3 = geoQs.length ∧ (100 / 3 : ℚ) = 100 * (1 : ℚ) / (geoQs.length : ℚ) :=
  quit_keeps_original_total.1 "geo" "Geo" geoQs false [] ["a", "", "quit"]
    { geoQuiz with score := 1 }
    [.asked 1, .asked 2, .results 1 3 (100 / 3) .practice]
    quit_keeps_original_total.2 1 3 (100 / 3) .practice
    (List.Mem.tail _ (List.Mem.tail _ (List.Mem.head _)))

/-- C7: a quiz whose question list is empty reports "no questions" and
returns before any session starts, and every results block (where the
division `score / total` happens) is emitted with a positive total. -/
theorem run_no_questions_guard (name title : String) (qs : List Question)
    (shuffle : Bool) (shuffled : List Question) (inputs : List String) :
    (qs = [] → run (mkQuiz name title qs) shuffle shuffled inputs =
      some (mkQuiz name title qs, [.noQuestions])) ∧
    (∀ q' out, run (mkQuiz name title qs) shuffle shuffled inputs =
        some (q', out) →
      ∀ s t p b, Output.results s t p b ∈ out → 0 < t) := by
  constructor
  · intro hqs
    subst hqs
    rfl
  · intro q' out h s t p b hmem
    obtain ⟨_, ht, _, _⟩ :=
      run_results_spec name title qs shuffle shuffled inputs q' out h s t p b hmem
    by_cases hqs : qs = []
    · subst hqs
      have hrun : run (mkQuiz name title []) shuffle shuffled inputs =
          some (mkQuiz name title [], [.noQuestions]) := rfl
      rw [hrun] at h
      simp only [Option.some.injEq, Prod.mk.injEq] at h
      rw [← h.2] at hmem
      simp at hmem
    · rw [ht]
      exact List.length_pos.mpr hqs

theorem run_no_questions_guard_witness :
    run (mkQuiz "empty" "Empty" []) false [] [] =
      some (mkQuiz "empty" "Empty" [], [.noQuestions]) :=
  (run_no_questions_guard "empty" "Empty" [] false [] []).1 rfl

/-- C10: `run` never mutates the question sequence or the stored total:
the returned object holds the questions passed at construction, in the
same order, with `total` still their count — the shuffle permutes only
a local copy. -/
theorem run_preserves_questions (name title : String) (qs : List Question)
    (shuffle : Bool) (shuffled : List Question) (inputs : List String)
    (q' : QuizState) (out : List Output)
    (h : run (mkQuiz name title qs) shuffle shuffled inputs = some (q', out)) :
    q'.questions = qs ∧ q'.total = qs.length := by
  rw [run] at h
  by_cases hqs : (mkQuiz name title qs).questions = []
  · rw [if_pos hqs] at h
    simp only [Option.some.injEq, Prod.mk.injEq] at h
    rw [← h.1]
    exact ⟨rfl, rfl⟩
  · rw [if_neg hqs] at h
    dsimp only at h
    cases hask : askAll (mkQuiz name title qs).score 1
        (if shuffle = true then shuffled else (mkQuiz name title qs).questions)
        inputs with
    | none => rw [hask] at h; simp at h
    | some p2 =>
      rw [hask] at h
      dsimp only at h
      simp only [Option.some.injEq, Prod.mk.injEq] at h
      rw [← h.1]
      exact ⟨rfl, rfl⟩

theorem run_preserves_questions_witness :
    ({ geoQuiz with score := 2 } : QuizState).questions = geoQs ∧
    ({ geoQuiz with score := 2 } : QuizState).total = geoQs.length := by
  refine run_preserves_questions "geo" "Geo" geoQs false [] ["a", "", "a", "", "c", ""]
    { geoQuiz with score := 2 }
    [.asked 1, .asked 2, .asked 3, .results 2 3 (200 / 3) .keepStudying] ?_
  have h1 : askAll 0 1 geoQs ["a", "", "a", "", "c", ""] =
      some (2, [.asked 1, .asked 2, .asked 3]) := by decide
  simp only [geoQs] at h1
  simp [run, geoQuiz, mkQuiz, geoQs, showResults, h1]
  constructor
  · norm_num
  · norm_num [bandOf]

/-- C3: on an accepted letter answer the score is incremented exactly when
the letter's index equals the question's correct index, and the question
is then consumed (the loop returns); concretely the `geo` run answering
`a, a, c` scores 2 of 3, shows 66.7% (666.7 per mille rounded to tenths:
667), and lands in the 60-or-above band. -/
theorem score_iff_match :
    (∀ (score : Nat) (q : Question) (inp pe : String) (rest : List String),
       pyLower (pyStrip inp) ∈ (["a", "b", "c", "d"] : List String) →
       askQuestion score q (inp :: pe :: rest) =
         .continued
           (if letterIndex (pyLower (pyStrip inp)) = q.correct
            then score + 1 else score) rest) ∧
    run geoQuiz false [] ["a", "", "a", "", "c", ""] =
      some ({ geoQuiz with score := 2 },
        [.asked 1, .asked 2, .asked 3,
         .results 2 3 (200 / 3) .keepStudying]) ∧
    displayTenths (200 / 3) = 667 := by
  refine ⟨?_, ?_, ?_⟩
  · intro score q inp pe rest hmem
    simp only [List.mem_cons, List.not_mem_nil, or_false] at hmem
    rcases hmem with h | h | h | h <;>
      simp [askQuestion, h] <;> split <;> simp_all
  · have h1 : askAll 0 1 geoQs ["a", "", "a", "", "c", ""] =
        some (2, [.asked 1, .asked 2, .asked 3]) := by decide
    simp only [geoQs] at h1
    simp [run, geoQuiz, mkQuiz, geoQs, showResults, h1]
    constructor
    · norm_num
    · norm_num [bandOf]
  · rw [displayTenths]
    norm_num [round_eq]

theorem score_iff_match_witness :
    (pyLower (pyStrip " A ") ∈ (["a", "b", "c", "d"] : List String)) ∧
    askQuestion 0 ⟨"q1", ["w", "x", "y", "z"], 0, ""⟩ [" A ", "", "x"] =
      .continued
        (if letterIndex (pyLower (pyStrip " A ")) =
            (⟨"q1", ["w", "x", "y", "z"], 0, ""⟩ : Question).correct
         then 0 + 1 else 0) ["x"] :=
  ⟨by decide,
   score_iff_match.1 0 ⟨"q1", ["w", "x", "y", "z"], 0, ""⟩ " A " "" ["x"] (by decide)⟩

/-! ## Listing order -/

/-- C8: `list_quizzes` is always sorted by quiz name ascending; it is
empty on an empty store, and after creating `"b"` then `"a"` it lists
`"a"` before `"b"`. -/
theorem list_quizzes_ordered :
    (∀ db : DBState, ((list_quizzes db).map (fun i => i.name)).Sorted (· ≤ ·)) ∧
    list_quizzes emptyDB = [] ∧
    (list_quizzes dbBA).map (fun i => i.name) = ["a", "b"] := by
  refine ⟨?_, rfl, by decide⟩
  intro db
  haveI : IsTotal QuizRow (fun a b => strLe a.name b.name = true) :=
    ⟨strLe_quizRow_total⟩
  haveI : IsTrans QuizRow (fun a b => strLe a.name b.name = true) :=
    ⟨strLe_quizRow_trans⟩
  have hs := List.sorted_insertionSort
    (fun a b : QuizRow => strLe a.name b.name = true) db.quizzes
  rw [list_quizzes, List.map_map]
  show (List.map _ _).Pairwise (· ≤ ·)
  rw [List.pairwise_map]
  exact hs.imp fun h => (strLe_iff _ _).mp h

/-! ## The round-trip property of authoring -/

theorem add_question_quizzes_eq (db : DBState) (n question : String)
    (choices : List String) (correct explanation : String) :
    (add_question db n question choices correct explanation).2.quizzes =
      db.quizzes := by
  unfold add_question
  split
  · rfl
  · split
    · split <;> rfl
    · rfl

theorem add_question_wf (db : DBState) (n question : String)
    (choices : List String) (correct explanation : String) (hwf : WF db) :
    WF (add_question db n question choices correct explanation).2 := by
  unfold add_question
  split
  · exact hwf
  · split
    · split
      · refine ⟨?_, ?_⟩
        · dsimp only
          rw [List.pairwise_append]
          refine ⟨hwf.idsSorted, by simp, ?_⟩
          intro a ha b hb
          simp only [List.mem_singleton] at hb
          rw [hb]
          exact hwf.idsLt a ha
        · dsimp only
          intro q hq
          rw [List.mem_append] at hq
          cases hq with
          | inl hmem => exact lt_trans (hwf.idsLt q hmem) (Nat.lt_succ_self _)
          | inr hmem =>
            simp only [List.mem_singleton] at hmem
            rw [hmem]
            exact Nat.lt_succ_self _
      · exact hwf
    · exact hwf

/-- On a well-formed store the rows selected by the join are already in id
order, so the `ORDER BY` is the identity. -/
theorem get_quiz_questions_eq_filter (db : DBState) (n : String) (hwf : WF db) :
    get_quiz_questions db n = (db.questions.filter (fun q =>
      db.quizzes.any (fun z => q.quizId == z.id && z.name == n))).map rowToOut := by
  rw [get_quiz_questions]
  congr 1
  apply List.Sorted.insertionSort_eq
  have hp : (db.questions.filter (fun q =>
      db.quizzes.any (fun z => q.quizId == z.id && z.name == n))).Pairwise
      (fun a b => a.id < b.id) :=
    hwf.idsSorted.sublist (List.filter_sublist _)
  exact hp.imp fun h => le_of_lt h

/-- Adding one valid question appends exactly its converted dictionary to
the retrieved sequence. -/
theorem add_question_get_step (db : DBState) (n : String) (s : QSpec)
    (hwf : WF db) (hex : ∃ z ∈ db.quizzes, z.name = n)
    (hlen : s.choices.length = 4)
    (hv : (["a", "b", "c", "d"] : List String).contains s.correct = true) :
    get_quiz_questions
        (add_question db n s.question s.choices s.correct s.explanation).2 n =
      get_quiz_questions db n ++ [specOut s] := by
  obtain ⟨z0, hz0, hz0n⟩ := hex
  cases hfind : db.quizzes.find? (fun z => z.name == n) with
  | none =>
    exfalso
    have := List.find?_eq_none.mp hfind z0 hz0
    simp [hz0n] at this
  | some qz =>
    have hqzmem : qz ∈ db.quizzes := List.mem_of_find?_eq_some hfind
    have hqzn : qz.name = n := by
      have := List.find?_some hfind
      simpa using this
    rcases s with ⟨stext, schoices, scorrect, sexp⟩
    rcases schoices with _ | ⟨c0, _ | ⟨c1, _ | ⟨c2, _ | ⟨c3, rest⟩⟩⟩⟩ <;>
      simp at hlen
    subst hlen
    have hadd : (add_question db n stext [c0, c1, c2, c3] scorrect sexp).2 =
        { db with
          questions := db.questions ++
            [⟨db.nextQuestionId, qz.id, stext, c0, c1, c2, c3, scorrect, sexp⟩],
          nextQuestionId := db.nextQuestionId + 1 } := by
      unfold add_question
      rw [hfind]
      dsimp only
      rw [if_pos hv]
    have hwf2 : WF (add_question db n stext [c0, c1, c2, c3] scorrect sexp).2 :=
      add_question_wf db n stext [c0, c1, c2, c3] scorrect sexp hwf
    rw [get_quiz_questions_eq_filter _ _ hwf2, get_quiz_questions_eq_filter _ _ hwf]
    rw [hadd]
    dsimp only
    rw [List.filter_append, List.map_append]
    congr 1
    have hcond : (db.quizzes.any (fun z =>
        ((⟨db.nextQuestionId, qz.id, stext, c0, c1, c2, c3, scorrect, sexp⟩ :
          QuestionRow).quizId == z.id) && z.name == n)) = true := by
      rw [List.any_eq_true]
      exact ⟨qz, hqzmem, by simp [hqzn]⟩
    simp only [List.filter_cons, hcond, if_true, List.filter_nil]
    rfl

/-- C4: for an existing quiz in a well-formed store, adding any sequence
of valid questions and then querying returns the previous sequence
followed by exactly the added questions, in the order added, each with
its text, four choices, correct label (as an index) and explanation
preserved; with no prior questions this is exactly the added sequence,
and with no added questions it is the empty sequence (not an error). -/
theorem get_quiz_questions_round_trip (db : DBState) (n : String)
    (specs : List QSpec) (hwf : WF db) (hex : ∃ z ∈ db.quizzes, z.name = n)
    (hvalid : ∀ s ∈ specs, s.choices.length = 4 ∧
      (["a", "b", "c", "d"] : List String).contains s.correct = true) :
    get_quiz_questions (addAll n db specs) n =
      get_quiz_questions db n ++ specs.map specOut := by
  induction specs generalizing db with
  | nil =>
    rw [addAll]
    simp
  | cons s ss ih =>
    rw [addAll]
    have hs := hvalid s (List.mem_cons_self s ss)
    have hstep := add_question_get_step db n s hwf hex hs.1 hs.2
    have hq := add_question_quizzes_eq db n s.question s.choices s.correct
      s.explanation
    have hex2 : ∃ z ∈ (add_question db n s.question s.choices s.correct
        s.explanation).2.quizzes, z.name = n := by
      rw [hq]
      exact hex
    have hwf2 := add_question_wf db n s.question s.choices s.correct
      s.explanation hwf
    rw [ih _ hwf2 hex2 (fun t ht => hvalid t (List.mem_cons_of_mem s ht))]
    rw [hstep]
    simp

theorem get_quiz_questions_round_trip_witness :
    WF dbG ∧ (∃ z ∈ dbG.quizzes, z.name = "g") ∧
    (∀ s ∈ demoSpecs, s.choices.length = 4 ∧
      (["a", "b", "c", "d"] : List String).contains s.correct = true) ∧
    get_quiz_questions (addAll "g" dbG demoSpecs) "g" =
      get_quiz_questions dbG "g" ++ demoSpecs.map specOut :=
  ⟨⟨List.Pairwise.nil, by intro q hq; simp [dbG, emptyDB, create_quiz] at hq⟩,
   ⟨⟨1, "g", "G", "desc"⟩, by decide, rfl⟩,
   by decide,
   get_quiz_questions_round_trip dbG "g" demoSpecs
     ⟨List.Pairwise.nil, by intro q hq; simp [dbG, emptyDB, create_quiz] at hq⟩
     ⟨⟨1, "g", "G", "desc"⟩, by decide, rfl⟩
     (by decide)⟩

end QuizApp
